import Mathlib

/-!
Shallow embedding of `carla_ros_bridge/bridge.py` (class `CarlaRosBridge`)
and proofs about its actor factory (`create_actor`), its reconciliation pass
(`update_actors`, callback `_carla_update_child_actors`), and its update pass
(`update`, callback `_carla_time_tick`).

Modelling conventions:
  * A CARLA actor handle (`carla_actor`) is a `CarlaActor`: an id, a type-id
    string, the `attributes.get('role_name')` lookup result, an opaque update
    behaviour, and an optional parent handle.
  * Python string prefix tests (`str.startswith`) are modelled on the
    character lists of the strings (`pyStartsWith`).
  * `self.actors` (a Python dict keyed by actor id) is an association list in
    insertion order; `dict.keys()` iteration uses that order (the source is
    Python 2, where `keys()` returns a fresh list snapshot).
  * The external binding and the entity classes are collaborators outside
    `bridge.py`; an entity's `update()` behaviour is modelled as an opaque
    `UpdResult`: it either returns, or raises an exception of some Python
    class (`RuntimeError` vs any other class), per the collaborator contract
    that `update()` may raise.  Logging, clock updates, and message flushes
    are recorded as `Event`s.
  * The two `threading.Lock` objects are booleans in the bridge state; a
    trylock (`acquire(False)`) succeeds exactly when the flag is clear.  The
    registry-mutation events record which locks were held at mutation time.
  * Timestamps (`carla_timestamp.elapsed_seconds`) are rationals; only `<`
    comparisons occur in the source.
-/

set_option linter.unusedVariables false

/-- Python `str.startswith(pre)`, modelled on the strings' character lists. -/
def pyStartsWith (s pre : String) : Bool :=
  pre.data.isPrefixOf s.data

/-- Exception classes distinguished by `bridge.py`: the `except RuntimeError`
clause in `CarlaRosBridge.update` catches exactly `RuntimeError`. -/
inductive ExnClass where
  | RuntimeError
  | OtherError
deriving DecidableEq, Repr

/-- Opaque behaviour of a collaborator `update()` call: return normally or
raise an exception of the given class with the given message. -/
inductive UpdResult where
  | ok
  | raise (c : ExnClass) (m : String)
deriving DecidableEq, Repr

/-- A propagating Python exception. -/
structure PyExn where
  cls : ExnClass
  msg : String
deriving DecidableEq, Repr

/-- A CARLA actor handle: `carla_actor.id`, `carla_actor.type_id`,
`carla_actor.attributes.get('role_name')`, the opaque update behaviour of
the entity that will wrap it, and `carla_actor.parent` (None or a handle). -/
inductive CarlaActor : Type where
  | root (aid : Nat) (tid : String) (role : Option String) (u : UpdResult)
  | child (aid : Nat) (tid : String) (role : Option String) (u : UpdResult)
      (par : CarlaActor)
deriving DecidableEq, Repr

def CarlaActor.id : CarlaActor → Nat
  | .root i _ _ _ => i
  | .child i _ _ _ _ => i

def CarlaActor.type_id : CarlaActor → String
  | .root _ t _ _ => t
  | .child _ t _ _ _ => t

def CarlaActor.role_name : CarlaActor → Option String
  | .root _ _ r _ => r
  | .child _ _ r _ _ => r

def CarlaActor.updOf : CarlaActor → UpdResult
  | .root _ _ _ u => u
  | .child _ _ _ u _ => u

def CarlaActor.parent : CarlaActor → Option CarlaActor
  | .root _ _ _ _ => none
  | .child _ _ _ _ p => some p

/-- The actor chain of a handle: the handle followed by all its ancestors. -/
def CarlaActor.chain : CarlaActor → List CarlaActor
  | .root i t r u => [.root i t r u]
  | .child i t r u p => .child i t r u p :: p.chain

/-- All handles reachable from an enumeration, parents included. -/
def closureOf : List CarlaActor → List CarlaActor
  | [] => []
  | a :: rest => a.chain ++ closureOf rest

/-- The closed set of entity classes `create_actor` instantiates (the Python
class names imported at the top of `bridge.py`). -/
inductive ActorClass where
  | TrafficLight
  | Traffic
  | EgoVehicle
  | Vehicle
  | RgbCamera
  | DepthCamera
  | SemanticSegmentationCamera
  | Camera
  | Lidar
  | Gnss
  | CollisionSensor
  | LaneInvasionSensor
  | Sensor
  | Spectator
  | Actor
deriving DecidableEq, Repr

/-- `__class__.__name__` of each entity class, as used in log messages. -/
def ActorClass.pyName : ActorClass → String
  | .TrafficLight => "TrafficLight"
  | .Traffic => "Traffic"
  | .EgoVehicle => "EgoVehicle"
  | .Vehicle => "Vehicle"
  | .RgbCamera => "RgbCamera"
  | .DepthCamera => "DepthCamera"
  | .SemanticSegmentationCamera => "SemanticSegmentationCamera"
  | .Camera => "Camera"
  | .Lidar => "Lidar"
  | .Gnss => "Gnss"
  | .CollisionSensor => "CollisionSensor"
  | .LaneInvasionSensor => "LaneInvasionSensor"
  | .Sensor => "Sensor"
  | .Spectator => "Spectator"
  | .Actor => "Actor"

/-- A registered entity as the bridge sees it: its class, `get_id()`,
`get_parent_id()`, and its opaque `update()` behaviour. -/
structure Entity where
  cls : ActorClass
  id : Nat
  parentId : Option Nat
  upd : UpdResult
deriving DecidableEq, Repr

/-- The pseudo actors of `bridge.py`: the `Map` singleton and `ObjectSensor`
instances with their `filtered_id` argument (`none` models
`filtered_id=None`, the unscoped whole-world publisher). -/
inductive PseudoKind where
  | map
  | objectSensor (filtered_id : Option Nat)
deriving DecidableEq, Repr

structure PseudoEntity where
  kind : PseudoKind
  upd : UpdResult
deriving DecidableEq, Repr

/-- Observable effects of a pass: log emissions, registry mutations (with the
lock flags held at mutation time), `update()` invocations, the logical clock
update and the message flush. -/
inductive Event where
  | logwarn (msg : String)
  | logCreated (cls : ActorClass) (aid : Nat)
  | insertActor (aid : Nat) (updateLockHeld : Bool) (childLockHeld : Bool)
  | removeActor (aid : Nat) (updateLockHeld : Bool) (childLockHeld : Bool)
  | pseudoUpdate (idx : Nat)
  | actorUpdate (aid : Nat)
  | updateClock (t : ℚ)
  | sendMsgs
deriving DecidableEq, Repr

/-- The mutable state of a `CarlaRosBridge` object: the actor registry
(`self.actors`, in insertion order), `self.pseudo_actors`,
`self.timestamp_last_run`, the two locks, the binding's shutdown flag, and
the configured `['ego_vehicle']['role_name']` parameter list. -/
structure BState where
  actors : List (Nat × Entity)
  pseudo_actors : List PseudoEntity
  timestamp_last_run : ℚ
  update_lock : Bool
  child_lock : Bool
  shutdown : Bool
  ego_roles : List String
deriving DecidableEq, Repr

/-- Dict read `self.actors[k]` / membership `k in self.actors`. -/
def regFind (l : List (Nat × Entity)) (k : Nat) : Option Entity :=
  (l.find? (fun kv => kv.1 == k)).map Prod.snd

/-- Dict write `self.actors[k] = v` (fresh keys append in insertion order). -/
def regInsert (l : List (Nat × Entity)) (k : Nat) (v : Entity) :
    List (Nat × Entity) :=
  if l.any (fun kv => kv.1 == k) then
    l.map (fun kv => if kv.1 == k then (k, v) else kv)
  else l ++ [(k, v)]

/-- Dict deletion `del self.actors[k]`. -/
def regErase (l : List (Nat × Entity)) (k : Nat) : List (Nat × Entity) :=
  l.filter (fun kv => !(kv.1 == k))

/-- Python truthiness of `id_to_delete` (an `Option Nat`): `None` is falsy
and so is the integer `0`. -/
def pyTruthy : Option Nat → Bool
  | none => false
  | some n => n != 0

/-- `attributes.get('role_name') in parameters['ego_vehicle']['role_name']`.
A missing attribute yields Python `None`, which is not an element of a list
of role-name strings. -/
def roleIsEgo (roles : List String) : Option String → Bool
  | some r => roles.contains r
  | none => false

/-- The type-tag classification of `create_actor`, lines 168-209 of
`bridge.py`, including the sensor branch's literal control flow: the camera
group is an `if/elif` chain, but the lidar/gnss/collision/lane-invasion
checks are four separate `if` statements that reassign `actor`, and the
final `else` (generic `Sensor`) is attached only to the lane-invasion
check, so it overwrites any earlier sensor match. -/
def classify (roles : List String) (tid : String) (role : Option String) :
    ActorClass :=
  if pyStartsWith tid "traffic" then
    if tid = "traffic.traffic_light" then ActorClass.TrafficLight
    else ActorClass.Traffic
  else if pyStartsWith tid "vehicle" then
    if roleIsEgo roles role then ActorClass.EgoVehicle
    else ActorClass.Vehicle
  else if pyStartsWith tid "sensor" then
    let actor0 : Option ActorClass :=
      if pyStartsWith tid "sensor.camera" then
        if pyStartsWith tid "sensor.camera.rgb" then some ActorClass.RgbCamera
        else if pyStartsWith tid "sensor.camera.depth" then
          some ActorClass.DepthCamera
        else if pyStartsWith tid "sensor.camera.semantic_segmentation" then
          some ActorClass.SemanticSegmentationCamera
        else some ActorClass.Camera
      else none
    let actor1 :=
      if pyStartsWith tid "sensor.lidar" then some ActorClass.Lidar else actor0
    let actor2 :=
      if pyStartsWith tid "sensor.other.gnss" then some ActorClass.Gnss
      else actor1
    let actor3 :=
      if pyStartsWith tid "sensor.other.collision" then
        some ActorClass.CollisionSensor
      else actor2
    let actor4 :=
      if pyStartsWith tid "sensor.other.lane_invasion" then
        some ActorClass.LaneInvasionSensor
      else some ActorClass.Sensor
    actor4.getD ActorClass.Sensor
  else if pyStartsWith tid "spectator" then ActorClass.Spectator
  else ActorClass.Actor

/-- The entity `create_actor` builds for a handle, expressed directly on the
handle: class from the classification, id from the handle, parent id from
the handle's parent.  (`create_actor` is proved to produce exactly this
under the registry invariants.) -/
def entityOf (roles : List String) (a : CarlaActor) : Entity :=
  { cls := classify roles a.type_id a.role_name
    id := a.id
    parentId := a.parent.map CarlaActor.id
    upd := a.updOf }

/-- The classification/registration step of `create_actor` after the parent
has been resolved: build the entity, perform the ego-vehicle side effect
(append a scoped `ObjectSensor` pseudo actor under the update lock), log
creation, and register the entity under the update lock (`with
self.update_lock`, a blocking acquire; the insert event records it held). -/
def mkStep (s : BState) (aid : Nat) (tid : String) (role : Option String)
    (u : UpdResult) (parentEnt : Option Entity) (evs1 : List Event) :
    BState × Entity × List Event :=
  let cls := classify s.ego_roles tid role
  let ent : Entity :=
    { cls := cls, id := aid, parentId := parentEnt.map Entity.id, upd := u }
  let s2 :=
    if cls = ActorClass.EgoVehicle then
      { s with pseudo_actors := s.pseudo_actors ++
          [{ kind := PseudoKind.objectSensor (some aid), upd := UpdResult.ok }] }
    else s
  ({ s2 with actors := regInsert s2.actors aid ent }, ent,
    evs1 ++ [Event.logCreated cls aid, Event.insertActor aid true s2.child_lock])

/-- `CarlaRosBridge.create_actor`: resolve the parent first (reuse it if its
id is already registered, otherwise create it recursively), then classify
and register. -/
def create_actor (s : BState) : CarlaActor → BState × Entity × List Event
  | .root aid tid role u => mkStep s aid tid role u none []
  | .child aid tid role u p =>
    match regFind s.actors p.id with
    | some pe => mkStep s aid tid role u (some pe) []
    | none =>
      let r := create_actor s p
      mkStep r.1 aid tid role u (some r.2.1) r.2.2

/-- The creation loop of `update_actors`: for every enumerated actor whose id
is not yet a registry key, call `create_actor`. -/
def addLoop (s : BState) : List CarlaActor → BState × List Event
  | [] => (s, [])
  | a :: rest =>
    if (regFind s.actors a.id).isSome then addLoop s rest
    else
      let r := create_actor s a
      let r2 := addLoop r.1 rest
      (r2.1, r.2.2 ++ r2.2)

/-- The removal loop of `update_actors` over a snapshot `ks` of the registry
keys: `id_to_delete` is set when the key is absent from the enumerated ids,
and the `if id_to_delete:` truthiness test then guards the warning and the
deletion (so the integer id `0` is never deleted). -/
def removeLoop (carla_ids : List Nat) (uHeld cHeld : Bool) :
    List Nat → List (Nat × Entity) → List (Nat × Entity) × List Event
  | [], l => (l, [])
  | k :: ks, l =>
    let id_to_delete : Option Nat :=
      if carla_ids.contains k then none else some k
    if pyTruthy id_to_delete then
      let r := removeLoop carla_ids uHeld cHeld ks (regErase l k)
      (r.1, Event.logwarn ("Remove Actor " ++ toString k) ::
            Event.removeActor k uHeld cHeld :: r.2)
    else removeLoop carla_ids uHeld cHeld ks l

/-- `CarlaRosBridge.update_actors`, with `E` the live enumeration returned by
`carla_world.get_actors()`: first the creation loop, then the removal loop
over the id list of the enumeration. -/
def update_actors (E : List CarlaActor) (s : BState) : BState × List Event :=
  let r1 := addLoop s E
  let carla_actor_ids := E.map CarlaActor.id
  let s1 := r1.1
  let r2 := removeLoop carla_actor_ids s1.update_lock s1.child_lock
      (s1.actors.map Prod.fst) s1.actors
  ({ s1 with actors := r2.1 }, r1.2 ++ r2.2)

/-- `CarlaRosBridge._carla_update_child_actors`: skip when shutdown is in
progress, trylock the child-actors lock (skip on contention), reconcile,
sleep one second (no state effect) and release. -/
def carla_update_child_actors (E : List CarlaActor) (s : BState) :
    BState × List Event :=
  if s.shutdown then (s, [])
  else if s.child_lock then (s, [])
  else
    let s1 : BState := { s with child_lock := true }
    let r := update_actors E s1
    ({ r.1 with child_lock := false }, r.2)

/-- The log message of the `except RuntimeError` handler in
`CarlaRosBridge.update`. -/
def failMsg (c : ActorClass) (k : Nat) (m : String) : String :=
  "Update actor " ++ c.pyName ++ "(" ++ toString k ++ ") failed: " ++ m

/-- The pseudo-actor loop of `CarlaRosBridge.update`: plain `update()` calls
with no exception handler, so the first raise of any class propagates. -/
def runPseudo : Nat → List PseudoEntity → List Event × Option PyExn
  | _, [] => ([], none)
  | i, p :: ps =>
    match p.upd with
    | UpdResult.ok =>
      let r := runPseudo (i + 1) ps
      (Event.pseudoUpdate i :: r.1, r.2)
    | UpdResult.raise c m =>
      ([Event.pseudoUpdate i], some { cls := c, msg := m })

/-- The registry loop of `CarlaRosBridge.update`: each `update()` call sits
in a `try` whose only handler is `except RuntimeError` (log and continue);
an exception of any other class propagates. -/
def runActors : List (Nat × Entity) → List Event × Option PyExn
  | [] => ([], none)
  | (k, e) :: rest =>
    match e.upd with
    | UpdResult.ok =>
      let r := runActors rest
      (Event.actorUpdate k :: r.1, r.2)
    | UpdResult.raise ExnClass.RuntimeError m =>
      let r := runActors rest
      (Event.actorUpdate k :: Event.logwarn (failMsg e.cls k m) :: r.1, r.2)
    | UpdResult.raise ExnClass.OtherError m =>
      ([Event.actorUpdate k], some { cls := ExnClass.OtherError, msg := m })

/-- `CarlaRosBridge.update`: update all pseudo actors, then all registered
actors. -/
def bridgeUpdate (s : BState) : List Event × Option PyExn :=
  let r1 := runPseudo 0 s.pseudo_actors
  match r1.2 with
  | some ex => (r1.1, some ex)
  | none =>
    let r2 := runActors s.actors
    (r1.1 ++ r2.1, r2.2)

/-- `CarlaRosBridge._carla_time_tick`: skip on shutdown, trylock the update
lock (skip on contention); when the incoming timestamp strictly exceeds
`timestamp_last_run`, store it, update the clock, run the update pass and
flush; the release is the next statement with no `try/finally`, so an
exception propagating from the update pass skips it and leaves the lock
held. -/
def carla_time_tick (s : BState) (t : ℚ) : BState × List Event × Option PyExn :=
  if s.shutdown then (s, [], none)
  else if s.update_lock then (s, [], none)
  else
    let s1 : BState := { s with update_lock := true }
    if s1.timestamp_last_run < t then
      let s2 : BState := { s1 with timestamp_last_run := t }
      let r := bridgeUpdate s2
      match r.2 with
      | some ex => (s2, Event.updateClock t :: r.1, some ex)
      | none =>
        ({ s2 with update_lock := false },
         Event.updateClock t :: r.1 ++ [Event.sendMsgs], none)
    else ({ s1 with update_lock := false }, [], none)

/-- A sequence of `_carla_time_tick` callback invocations; an exception
aborts only its own invocation (the simulator keeps firing the callback). -/
def runTicks : BState → List ℚ → BState × List Event
  | s, [] => (s, [])
  | s, t :: ts =>
    let r := carla_time_tick s t
    let r2 := runTicks r.1 ts
    (r2.1, r.2.1 ++ r2.2)

/-- A timestamp sequence that never increases, starting from `t0`. -/
def nonIncreasingB : ℚ → List ℚ → Bool
  | _, [] => true
  | t, t' :: ts => !(decide (t < t')) && nonIncreasingB t' ts

/-- Bool form of: every registry value's `get_id()` equals its key. -/
def idMatchB (l : List (Nat × Entity)) : Bool :=
  l.all (fun kv => kv.2.id == kv.1)

/-- Bool form of: the registry keys are pairwise distinct. -/
def keysNodupB (l : List (Nat × Entity)) : Bool :=
  (l.map Prod.fst).Nodup

/-- Bool form of: a handle's ancestor chain has pairwise distinct ids. -/
def chainNodupB (a : CarlaActor) : Bool :=
  (a.chain.map CarlaActor.id).Nodup

/-- Bool form of: within a handle list, equal ids denote equal handles. -/
def idsConsistentB (l : List CarlaActor) : Bool :=
  l.all (fun x => l.all (fun y => !(x.id == y.id) || x == y))

/-- Bool form of: an update behaviour either returns or raises
`RuntimeError` (the class the registry loop's handler catches). -/
def okOrRteB : UpdResult → Bool
  | UpdResult.ok => true
  | UpdResult.raise c _ => c == ExnClass.RuntimeError

/-- Parent-registered-before-child for the block `new` appended to a
registry `old`: any entry of `new` with a parent id finds that id among the
keys inserted strictly before it. -/
def ParentBefore (old new : List (Nat × Entity)) : Prop :=
  ∀ n1 kv n2, new = n1 ++ kv :: n2 → ∀ pid, kv.2.parentId = some pid →
    pid ∈ (old ++ n1).map Prod.fst

/-! ### Registry and invariant helper lemmas -/

/-- Prop form of `idMatchB`. -/
def IdMatch (l : List (Nat × Entity)) : Prop := ∀ kv ∈ l, kv.2.id = kv.1

/-- Prop form of `keysNodupB`. -/
def KeysNodup (l : List (Nat × Entity)) : Prop := (l.map Prod.fst).Nodup

theorem idMatchB_iff (l : List (Nat × Entity)) :
    idMatchB l = true ↔ IdMatch l := by
  simp [idMatchB, IdMatch, List.all_eq_true]

theorem keysNodupB_iff (l : List (Nat × Entity)) :
    keysNodupB l = true ↔ KeysNodup l := by
  simp [keysNodupB, KeysNodup]

theorem chainNodupB_iff (a : CarlaActor) :
    chainNodupB a = true ↔ ((a.chain.map CarlaActor.id).Nodup) := by
  simp [chainNodupB]

theorem regFind_some_mem {l : List (Nat × Entity)} {k : Nat} {e : Entity}
    (h : regFind l k = some e) : (k, e) ∈ l := by
  unfold regFind at h
  obtain ⟨kv, hfind, hsnd⟩ := Option.map_eq_some'.mp h
  have hmem := List.mem_of_find?_eq_some hfind
  have hp := List.find?_some hfind
  have hk : kv.1 = k := by simpa using hp
  have : kv = (k, e) := by
    obtain ⟨k1, e1⟩ := kv
    simp_all
  rwa [this] at hmem

theorem regFind_some_key {l : List (Nat × Entity)} {k : Nat} {e : Entity}
    (h : regFind l k = some e) : k ∈ l.map Prod.fst := by
  exact List.mem_map.mpr ⟨(k, e), regFind_some_mem h, rfl⟩

theorem regFind_none_key {l : List (Nat × Entity)} {k : Nat}
    (h : regFind l k = none) : k ∉ l.map Prod.fst := by
  unfold regFind at h
  have hf : l.find? (fun kv => kv.1 == k) = none := by
    cases hx : l.find? (fun kv => kv.1 == k) with
    | none => rfl
    | some kv => rw [hx] at h; simp at h
  intro hmem
  obtain ⟨kv, hkv, hfst⟩ := List.mem_map.mp hmem
  have := List.find?_eq_none.mp hf kv hkv
  simp [hfst] at this

theorem regFind_isSome_iff (l : List (Nat × Entity)) (k : Nat) :
    (regFind l k).isSome = true ↔ k ∈ l.map Prod.fst := by
  constructor
  · intro h
    obtain ⟨e, he⟩ := Option.isSome_iff_exists.mp h
    exact regFind_some_key he
  · intro h
    cases hx : regFind l k with
    | none => exact absurd h (regFind_none_key hx)
    | some e => simp

theorem regInsert_append {l : List (Nat × Entity)} {k : Nat} (v : Entity)
    (h : k ∉ l.map Prod.fst) : regInsert l k v = l ++ [(k, v)] := by
  unfold regInsert
  have hany : l.any (fun kv => kv.1 == k) = false := by
    rw [List.any_eq_false]
    intro kv hkv
    simp only [beq_iff_eq]
    intro hk
    exact h (List.mem_map.mpr ⟨kv, hkv, hk⟩)
  simp [hany]

theorem regErase_keeps {l : List (Nat × Entity)} {k k0 : Nat}
    (hne : k0 ≠ k) (h : k0 ∈ l.map Prod.fst) :
    k0 ∈ (regErase l k).map Prod.fst := by
  obtain ⟨kv, hkv, hfst⟩ := List.mem_map.mp h
  refine List.mem_map.mpr ⟨kv, ?_, hfst⟩
  refine List.mem_filter.mpr ⟨hkv, ?_⟩
  simp [hfst, hne]

/-! ### Claim C1 (code bug): sensor classification collapse -/

/-- Claim C1 asserts classification totality: each tag in the closed set
resolves to its documented variant, the generic sensor fallback firing only
when no specific sensor check matched.  The code disagrees: in the sensor
branch of `create_actor` the lidar/gnss/collision/lane-invasion checks are
separate `if` statements and the final `else` belongs only to the
lane-invasion `if`, so every sensor tag except `sensor.other.lane_invasion`
ends up as the generic `Sensor` — the camera, lidar, gnss and collision
matches are computed and then overwritten.  This theorem evaluates the
embedded classification at the failing tags. -/
theorem c1_sensor_classification_collapse :
    classify [] "sensor.camera.rgb" none = ActorClass.Sensor ∧
    classify [] "sensor.camera.depth" none = ActorClass.Sensor ∧
    classify [] "sensor.camera.semantic_segmentation" none = ActorClass.Sensor ∧
    classify [] "sensor.camera.other" none = ActorClass.Sensor ∧
    classify [] "sensor.lidar.ray_cast" none = ActorClass.Sensor ∧
    classify [] "sensor.other.gnss" none = ActorClass.Sensor ∧
    classify [] "sensor.other.collision" none = ActorClass.Sensor ∧
    classify [] "sensor.other.lane_invasion" none = ActorClass.LaneInvasionSensor ∧
    classify [] "traffic.traffic_light" none = ActorClass.TrafficLight ∧
    classify [] "spectator" none = ActorClass.Spectator := by
  decide

/-! ### Claim C2 (code bug): reconciliation misses the id 0 -/

def c2Entity : Entity :=
  { cls := ActorClass.Actor, id := 0, parentId := none, upd := UpdResult.ok }

def c2State : BState :=
  { actors := [(0, c2Entity)], pseudo_actors := [], timestamp_last_run := 0,
    update_lock := false, child_lock := false, shutdown := false,
    ego_roles := [] }

def c2Entity7 : Entity :=
  { cls := ActorClass.Actor, id := 7, parentId := none, upd := UpdResult.ok }

def c2State7 : BState :=
  { actors := [(7, c2Entity7)], pseudo_actors := [], timestamp_last_run := 0,
    update_lock := false, child_lock := false, shutdown := false,
    ego_roles := [] }

/-- Claim C2 asserts that after `update_actors` the registry keys equal the
enumerated ids exactly, including for an entity with id 0.  The code
disagrees: the removal loop guards the deletion with the truthiness test
`if id_to_delete:`, and the integer 0 is falsy in Python, so a registered
entity with id 0 that is absent from the live enumeration is never removed
(while an id such as 7 is).  This theorem evaluates `update_actors` on an
empty enumeration against registries `{0}` and `{7}`. -/
theorem c2_zero_id_never_removed :
    (update_actors [] c2State).1.actors.map Prod.fst = [0] ∧
    (update_actors [] c2State7).1.actors.map Prod.fst = [] := by
  decide

/-! ### Claim C3 counterexample: pseudo-actor errors are not caught -/

def c3Entity : Entity :=
  { cls := ActorClass.Actor, id := 5, parentId := none, upd := UpdResult.ok }

def c3State : BState :=
  { actors := [(5, c3Entity)],
    pseudo_actors := [{ kind := PseudoKind.objectSensor none,
                        upd := UpdResult.raise ExnClass.RuntimeError "boom" }],
    timestamp_last_run := 0, update_lock := false, child_lock := false,
    shutdown := false, ego_roles := [] }

/-- Claim C3 asserts that a recoverable runtime error raised by ANY entity's
`update()` during the update pass — pseudo-entity or registry entity — is
caught and logged, with the pass still updating all remaining entities and
not propagating.  Counterexample: the pseudo-actor loop of
`CarlaRosBridge.update` has no exception handler, so a `RuntimeError`
raised by a pseudo entity propagates out of the pass and the registered
entity with id 5 is never updated. -/
theorem c3_counterexample :
    (bridgeUpdate c3State).2 =
      some { cls := ExnClass.RuntimeError, msg := "boom" } ∧
    Event.actorUpdate 5 ∉ (bridgeUpdate c3State).1 := by
  decide

/-! ### Claim C4 counterexample: the lock leaks when the pass raises -/

def c4State : BState :=
  { actors := [],
    pseudo_actors := [{ kind := PseudoKind.map,
                        upd := UpdResult.raise ExnClass.RuntimeError "boom" }],
    timestamp_last_run := 0, update_lock := false, child_lock := false,
    shutdown := false, ego_roles := [] }

/-- Claim C4 asserts that whenever `_carla_time_tick` successfully acquires
the update lock it releases it before returning, regardless of any error
raised inside the update pass or the flush.  Counterexample: the release
statement is not in a `try/finally`, so when the update pass raises (here a
pseudo entity raising `RuntimeError "boom"`), the callback propagates the
exception with the update lock still held. -/
theorem c4_counterexample :
    (carla_time_tick c4State 1).2.2 =
      some { cls := ExnClass.RuntimeError, msg := "boom" } ∧
    (carla_time_tick c4State 1).1.update_lock = true := by
  decide

/-! ### Claim C6 counterexample: the parent entry does not survive -/

def c6cChild : CarlaActor :=
  CarlaActor.child 2 "sensor.other.lane_invasion" none UpdResult.ok
    (CarlaActor.root 1 "static.prop" none UpdResult.ok)

def c6cState : BState :=
  { actors := [], pseudo_actors := [], timestamp_last_run := 0,
    update_lock := false, child_lock := false, shutdown := false,
    ego_roles := [] }

def c6cDupX : CarlaActor :=
  CarlaActor.child 9 "vehicle.a" none UpdResult.ok
    (CarlaActor.root 5 "vehicle.b" none UpdResult.ok)

def c6cDupC : CarlaActor :=
  CarlaActor.child 5 "vehicle.c" none UpdResult.ok
    (CarlaActor.root 3 "vehicle.d" none UpdResult.ok)

/-- Claim C6 asserts that for EVERY reconciliation over an enumeration
containing an entity whose parent is not yet registered, after the pass the
parent's registry entry exists (inserted no later than the child's).
Counterexample 1: enumeration `[child id 2 with parent id 1]` over an empty
registry — the parent is created during the creation loop but its id is not
among the enumerated ids, so the removal loop deletes it; after
`update_actors` only key 2 remains.  Counterexample 2 (inconsistent ids):
when two distinct handles share id 5, the first insertion of key 5 resolves
a different handle, and the parent (id 3) of the enumerated id-5 entity is
never inserted at all even during creation. -/
theorem c6_counterexample :
    (update_actors [c6cChild] c6cState).1.actors.map Prod.fst = [2] ∧
    1 ∉ (update_actors [c6cChild] c6cState).1.actors.map Prod.fst ∧
    (addLoop c6cState [c6cDupX, c6cDupC]).1.actors.map Prod.fst = [5, 9] ∧
    3 ∉ (addLoop c6cState [c6cDupX, c6cDupC]).1.actors.map Prod.fst := by
  decide

/-! ### Claim C7 counterexample: removal happens outside the update lock -/

def c7Entity : Entity :=
  { cls := ActorClass.Actor, id := 2, parentId := none, upd := UpdResult.ok }

def c7State : BState :=
  { actors := [(2, c7Entity)], pseudo_actors := [], timestamp_last_run := 0,
    update_lock := false, child_lock := false, shutdown := false,
    ego_roles := [] }

/-- Claim C7 asserts that every registry mutation — Factory insertion and
Reconciler removal alike — happens while the update lock is held.
Counterexample: running the reconciliation callback on a registry holding
id 2 with an empty live enumeration produces a removal event whose recorded
update-lock flag is `false` (the deletion in `update_actors` runs under the
child-actors lock only; nothing acquires the update lock around it). -/
theorem c7_counterexample :
    Event.removeActor 2 false true ∈
      (carla_update_child_actors [] c7State).2 := by
  decide

/-! ### Tick-callback lemmas -/

theorem tick_noop_shutdown {s : BState} (t : ℚ) (h : s.shutdown = true) :
    carla_time_tick s t = (s, [], none) := by
  simp [carla_time_tick, h]

theorem tick_noop_locked {s : BState} (t : ℚ) (h : s.update_lock = true) :
    carla_time_tick s t = (s, [], none) := by
  cases hs : s.shutdown with
  | true => exact tick_noop_shutdown t hs
  | false => simp [carla_time_tick, h, hs]

theorem tick_noop_stale {s : BState} {t : ℚ} (hsd : s.shutdown = false)
    (hlk : s.update_lock = false) (h : ¬ s.timestamp_last_run < t) :
    carla_time_tick s t = (s, [], none) := by
  cases s with
  | mk a ps ts ul cl sd rg =>
    simp only at hsd hlk h
    subst hsd hlk
    simp [carla_time_tick, h]

theorem tick_adv {s : BState} {t : ℚ} (hsd : s.shutdown = false)
    (hlk : s.update_lock = false) (h : s.timestamp_last_run < t) :
    (carla_time_tick s t).1.timestamp_last_run = t ∧
    (carla_time_tick s t).1.shutdown = false ∧
    Event.updateClock t ∈ (carla_time_tick s t).2.1 := by
  cases s with
  | mk a ps ts ul cl sd rg =>
    simp only at hsd hlk h
    subst hsd hlk
    simp only [carla_time_tick, Bool.false_eq_true, if_false, h, if_true]
    cases hbu : (bridgeUpdate (BState.mk a ps t true cl false rg)).2 with
    | some ex => simp [hbu]
    | none => simp [hbu]

/-! ### Claim C4 (amended): lock release on non-raising outcomes -/

/-- Claim C4 amended: whenever `_carla_time_tick` acquires the update lock
(shutdown clear, lock free), it releases the lock before returning provided
the update pass and flush raise no exception — including the case of a
non-advancing timestamp; when an exception propagates out of the pass, the
callback returns with the update lock still held. -/
theorem c4_amended (s : BState) (t : ℚ) (hsd : s.shutdown = false)
    (hlk : s.update_lock = false) :
    ((carla_time_tick s t).2.2 = none →
      (carla_time_tick s t).1.update_lock = false) ∧
    ((carla_time_tick s t).2.2 ≠ none →
      (carla_time_tick s t).1.update_lock = true) := by
  cases s with
  | mk a ps ts ul cl sd rg =>
    simp only at hsd hlk
    subst hsd hlk
    by_cases h : ts < t
    · simp only [carla_time_tick, Bool.false_eq_true, if_false, h, if_true]
      cases hbu : (bridgeUpdate (BState.mk a ps t true cl false rg)).2 with
      | some ex => simp [hbu]
      | none => simp [hbu]
    · simp [carla_time_tick, h]

def c4OkState : BState :=
  { actors := [],
    pseudo_actors := [{ kind := PseudoKind.map, upd := UpdResult.ok }],
    timestamp_last_run := 0, update_lock := false, child_lock := false,
    shutdown := false, ego_roles := [] }

/-- Witness for `c4_amended` at concrete inputs: a clean pass releases the
lock, a raising pass leaves it held. -/
theorem c4_amended_witness :
    (carla_time_tick c4OkState 1).1.update_lock = false ∧
    (carla_time_tick c4State 1).1.update_lock = true :=
  ⟨(c4_amended c4OkState 1 (by decide) (by decide)).1 (by decide),
   (c4_amended c4State 1 (by decide) (by decide)).2 (by decide)⟩

/-! ### Claim C5: idempotent timestamp gating -/

theorem nonIncreasingB_all {t0 : ℚ} {ts : List ℚ}
    (h : nonIncreasingB t0 ts = true) : ∀ x ∈ ts, ¬ t0 < x := by
  induction ts generalizing t0 with
  | nil => intro x hx; cases hx
  | cons t1 rest ih =>
    simp only [nonIncreasingB, Bool.and_eq_true, Bool.not_eq_true',
      decide_eq_false_iff_not] at h
    intro x hx hlt
    rcases List.mem_cons.mp hx with rfl | hx'
    · exact h.1 hlt
    · have hx1 : x ≤ t1 := le_of_not_lt (ih h.2 x hx')
      have ht1 : t1 ≤ t0 := le_of_not_lt h.1
      exact absurd (lt_of_lt_of_le hlt (hx1.trans ht1)) (lt_irrefl t0)

theorem runTicks_noop {ts : List ℚ} : ∀ {s : BState},
    (∀ x ∈ ts, ¬ s.timestamp_last_run < x) → runTicks s ts = (s, []) := by
  induction ts with
  | nil => intro s h; rfl
  | cons t1 rest ih =>
    intro s h
    have hstep : carla_time_tick s t1 = (s, [], none) := by
      cases hsd : s.shutdown with
      | true => exact tick_noop_shutdown t1 hsd
      | false =>
        cases hlk : s.update_lock with
        | true => exact tick_noop_locked t1 hlk
        | false => exact tick_noop_stale hsd hlk (h t1 (List.mem_cons_self _ _))
    simp [runTicks, hstep, ih (fun x hx => h x (List.mem_cons_of_mem _ hx))]

/-- Claim C5: for a sequence of `_carla_time_tick` invocations whose
timestamps never increase after the first, with the first strictly
advancing past `timestamp_last_run` (shutdown clear, update lock free),
only the first invocation runs the update pass — it emits the clock update
and stores the timestamp — and every later invocation leaves the bridge
state unchanged and produces no events (no clock update, no entity update,
no flush). -/
theorem c5_idempotent_gating (s : BState) (t0 : ℚ) (ts : List ℚ)
    (hsd : s.shutdown = false) (hlk : s.update_lock = false)
    (hadv : s.timestamp_last_run < t0) (hni : nonIncreasingB t0 ts = true) :
    Event.updateClock t0 ∈ (carla_time_tick s t0).2.1 ∧
    (carla_time_tick s t0).1.timestamp_last_run = t0 ∧
    runTicks (carla_time_tick s t0).1 ts = ((carla_time_tick s t0).1, []) := by
  obtain ⟨h1, h2, h3⟩ := tick_adv hsd hlk hadv
  refine ⟨h3, h1, runTicks_noop ?_⟩
  intro x hx
  rw [h1]
  exact nonIncreasingB_all hni x hx

def c5State : BState :=
  { actors := [], pseudo_actors := [{ kind := PseudoKind.map, upd := UpdResult.ok }],
    timestamp_last_run := 0, update_lock := false, child_lock := false,
    shutdown := false, ego_roles := [] }

/-- Witness for `c5_idempotent_gating` on a concrete non-increasing tick
sequence `1, 1, 0`. -/
theorem c5_idempotent_gating_witness :
    Event.updateClock 1 ∈ (carla_time_tick c5State 1).2.1 ∧
    (carla_time_tick c5State 1).1.timestamp_last_run = 1 ∧
    runTicks (carla_time_tick c5State 1).1 [1, 1, 0] =
      ((carla_time_tick c5State 1).1, []) :=
  c5_idempotent_gating c5State 1 [1, 1, 0] (by decide) (by decide)
    (by decide) (by decide)

/-! ### Update-pass lemmas -/

theorem runPseudo_all_ok {ps : List PseudoEntity}
    (h : ∀ p ∈ ps, p.upd = UpdResult.ok) : ∀ i, (runPseudo i ps).2 = none := by
  induction ps with
  | nil => intro i; rfl
  | cons p rest ih =>
    intro i
    have hp := h p (List.mem_cons_self _ _)
    simp [runPseudo, hp, ih (fun q hq => h q (List.mem_cons_of_mem _ hq)) (i + 1)]

theorem runActors_all_caught : ∀ l : List (Nat × Entity),
    (∀ kv ∈ l, okOrRteB kv.2.upd = true) →
    (runActors l).2 = none ∧
    (∀ kv ∈ l, Event.actorUpdate kv.1 ∈ (runActors l).1) ∧
    (∀ kv ∈ l, ∀ m, kv.2.upd = UpdResult.raise ExnClass.RuntimeError m →
      Event.logwarn (failMsg kv.2.cls kv.1 m) ∈ (runActors l).1) := by
  intro l
  induction l with
  | nil => intro h; exact ⟨rfl, by simp, by simp⟩
  | cons kv0 rest ih =>
    intro h
    obtain ⟨k, e⟩ := kv0
    have hr := ih (fun kv hv => h kv (List.mem_cons_of_mem _ hv))
    have h0 : okOrRteB e.upd = true := h (k, e) (List.mem_cons_self _ _)
    cases hu : e.upd with
    | ok =>
      refine ⟨by simp [runActors, hu, hr.1], ?_, ?_⟩
      · intro kv hkv
        rcases List.mem_cons.mp hkv with rfl | hkv'
        · simp [runActors, hu]
        · simp only [runActors, hu]
          exact List.mem_cons_of_mem _ (hr.2.1 kv hkv')
      · intro kv hkv m hm
        rcases List.mem_cons.mp hkv with rfl | hkv'
        · rw [hu] at hm; cases hm
        · simp only [runActors, hu]
          exact List.mem_cons_of_mem _ (hr.2.2 kv hkv' m hm)
    | raise c m0 =>
      have hc : c = ExnClass.RuntimeError := by
        rw [hu] at h0
        simpa [okOrRteB] using h0
      subst hc
      refine ⟨by simp [runActors, hu, hr.1], ?_, ?_⟩
      · intro kv hkv
        rcases List.mem_cons.mp hkv with rfl | hkv'
        · simp [runActors, hu]
        · simp only [runActors, hu]
          exact List.mem_cons_of_mem _ (List.mem_cons_of_mem _ (hr.2.1 kv hkv'))
      · intro kv hkv m hm
        rcases List.mem_cons.mp hkv with rfl | hkv'
        · rw [hu] at hm
          injection hm with hm1 hm2
          subst hm2
          simp [runActors, hu]
        · simp only [runActors, hu]
          exact List.mem_cons_of_mem _ (List.mem_cons_of_mem _ (hr.2.2 kv hkv' m hm))

theorem runPseudo_raises : ∀ ps1 : List PseudoEntity,
    ∀ (p : PseudoEntity) (ps2 : List PseudoEntity) (i : Nat) (c : ExnClass)
      (m : String),
    (∀ q ∈ ps1, q.upd = UpdResult.ok) → p.upd = UpdResult.raise c m →
    (runPseudo i (ps1 ++ p :: ps2)).2 = some { cls := c, msg := m } := by
  intro ps1
  induction ps1 with
  | nil =>
    intro p ps2 i c m _ hq
    simp [runPseudo, hq]
  | cons q rest ih =>
    intro p ps2 i c m h hq
    have hqok : q.upd = UpdResult.ok := h q (List.mem_cons_self _ _)
    simp only [List.cons_append, runPseudo, hqok]
    exact ih p ps2 (i + 1) c m (fun x hx => h x (List.mem_cons_of_mem _ hx)) hq

theorem runActors_raises : ∀ l1 : List (Nat × Entity),
    ∀ (k : Nat) (e : Entity) (l2 : List (Nat × Entity)) (m : String),
    (∀ kv ∈ l1, okOrRteB kv.2.upd = true) →
    e.upd = UpdResult.raise ExnClass.OtherError m →
    (runActors (l1 ++ (k, e) :: l2)).2 =
      some { cls := ExnClass.OtherError, msg := m } := by
  intro l1
  induction l1 with
  | nil =>
    intro k e l2 m _ he
    simp [runActors, he]
  | cons kv0 rest ih =>
    intro k e l2 m h he
    obtain ⟨k0, e0⟩ := kv0
    have h0 : okOrRteB e0.upd = true := h (k0, e0) (List.mem_cons_self _ _)
    have htail := fun x hx => h x (List.mem_cons_of_mem _ hx)
    cases hu : e0.upd with
    | ok =>
      simp only [List.cons_append, runActors, hu]
      exact ih k e l2 m htail he
    | raise c0 m0 =>
      have hc : c0 = ExnClass.RuntimeError := by
        rw [hu] at h0
        simpa [okOrRteB] using h0
      subst hc
      simp only [List.cons_append, runActors, hu]
      exact ih k e l2 m htail he

/-! ### Claim C3 (amended): isolation holds for registry entities only -/

/-- Claim C3 amended: during the update pass, a `RuntimeError` raised by a
REGISTRY entity's `update()` is caught and logged with the entity's class
name, id, and error message, `update()` is still invoked on every registry
entity, and the pass completes without propagating — provided the pseudo
entities do not raise (a pseudo entity's error is not caught, see the
counterexample). -/
theorem c3_amended (s : BState)
    (hp : s.pseudo_actors.all (fun p => p.upd == UpdResult.ok) = true)
    (ha : s.actors.all (fun kv => okOrRteB kv.2.upd) = true) :
    (bridgeUpdate s).2 = none ∧
    (∀ kv ∈ s.actors, Event.actorUpdate kv.1 ∈ (bridgeUpdate s).1) ∧
    (∀ kv ∈ s.actors, ∀ m,
      kv.2.upd = UpdResult.raise ExnClass.RuntimeError m →
      Event.logwarn (failMsg kv.2.cls kv.1 m) ∈ (bridgeUpdate s).1) := by
  have hp' : ∀ p ∈ s.pseudo_actors, p.upd = UpdResult.ok := by
    intro p hmem
    simpa using List.all_eq_true.mp hp p hmem
  have ha' : ∀ kv ∈ s.actors, okOrRteB kv.2.upd = true :=
    fun kv hv => List.all_eq_true.mp ha kv hv
  have hps := runPseudo_all_ok hp' 0
  obtain ⟨h1, h2, h3⟩ := runActors_all_caught s.actors ha'
  simp only [bridgeUpdate, hps]
  exact ⟨h1,
    fun kv hv => List.mem_append_right _ (h2 kv hv),
    fun kv hv m hm => List.mem_append_right _ (h3 kv hv m hm)⟩

def c3wGood : Entity :=
  { cls := ActorClass.Vehicle, id := 5, parentId := none, upd := UpdResult.ok }

def c3wBad : Entity :=
  { cls := ActorClass.Lidar, id := 6, parentId := none,
    upd := UpdResult.raise ExnClass.RuntimeError "oops" }

def c3wState : BState :=
  { actors := [(5, c3wGood), (6, c3wBad), (8, c3wGood)],
    pseudo_actors := [{ kind := PseudoKind.map, upd := UpdResult.ok }],
    timestamp_last_run := 0, update_lock := false, child_lock := false,
    shutdown := false, ego_roles := [] }

/-- Witness for `c3_amended`: a registry of three entities whose middle one
raises `RuntimeError "oops"`. -/
theorem c3_amended_witness :
    (bridgeUpdate c3wState).2 = none ∧
    (∀ kv ∈ c3wState.actors,
      Event.actorUpdate kv.1 ∈ (bridgeUpdate c3wState).1) ∧
    (∀ kv ∈ c3wState.actors, ∀ m,
      kv.2.upd = UpdResult.raise ExnClass.RuntimeError m →
      Event.logwarn (failMsg kv.2.cls kv.1 m) ∈ (bridgeUpdate c3wState).1) :=
  c3_amended c3wState (by decide) (by decide)

/-! ### Claim C10: narrowness of the per-entity catch -/

/-- Claim C10: during the update pass, only `RuntimeError` raised by a
registry entity's `update()` is caught.  Part 1: an exception of ANY class
raised by a pseudo entity propagates out of the pass.  Part 2: a
non-`RuntimeError` exception raised by a registry entity propagates (the
entities before it being well behaved).  Part 3: when every registry entity
either returns or raises `RuntimeError`, nothing propagates. -/
theorem c10_catch_narrowness :
    (∀ (s : BState) (ps1 : List PseudoEntity) (p : PseudoEntity)
        (ps2 : List PseudoEntity) (c : ExnClass) (m : String),
      s.pseudo_actors = ps1 ++ p :: ps2 →
      ps1.all (fun q => q.upd == UpdResult.ok) = true →
      p.upd = UpdResult.raise c m →
      (bridgeUpdate s).2 = some { cls := c, msg := m }) ∧
    (∀ (s : BState) (l1 : List (Nat × Entity)) (k : Nat) (e : Entity)
        (l2 : List (Nat × Entity)) (m : String),
      s.pseudo_actors.all (fun p => p.upd == UpdResult.ok) = true →
      s.actors = l1 ++ (k, e) :: l2 →
      l1.all (fun kv => okOrRteB kv.2.upd) = true →
      e.upd = UpdResult.raise ExnClass.OtherError m →
      (bridgeUpdate s).2 = some { cls := ExnClass.OtherError, msg := m }) ∧
    (∀ s : BState,
      s.pseudo_actors.all (fun p => p.upd == UpdResult.ok) = true →
      s.actors.all (fun kv => okOrRteB kv.2.upd) = true →
      (bridgeUpdate s).2 = none) := by
  refine ⟨?_, ?_, ?_⟩
  · intro s ps1 p ps2 c m hsplit hok hraise
    have h1 : ∀ q ∈ ps1, q.upd = UpdResult.ok := by
      intro q hq
      simpa using List.all_eq_true.mp hok q hq
    have hthis := runPseudo_raises ps1 p ps2 0 c m h1 hraise
    simp [bridgeUpdate, hsplit, hthis]
  · intro s l1 k e l2 m hpok hsplit hok hraise
    have hp' : ∀ p ∈ s.pseudo_actors, p.upd = UpdResult.ok := by
      intro p hmem
      simpa using List.all_eq_true.mp hpok p hmem
    have hps := runPseudo_all_ok hp' 0
    have h1 : ∀ kv ∈ l1, okOrRteB kv.2.upd = true :=
      fun kv hv => List.all_eq_true.mp hok kv hv
    have hthis := runActors_raises l1 k e l2 m h1 hraise
    simp [bridgeUpdate, hps, hsplit, hthis]
  · intro s hpok haok
    have hp' : ∀ p ∈ s.pseudo_actors, p.upd = UpdResult.ok := by
      intro p hmem
      simpa using List.all_eq_true.mp hpok p hmem
    have hps := runPseudo_all_ok hp' 0
    have ha' : ∀ kv ∈ s.actors, okOrRteB kv.2.upd = true :=
      fun kv hv => List.all_eq_true.mp haok kv hv
    obtain ⟨h1, -, -⟩ := runActors_all_caught s.actors ha'
    simp [bridgeUpdate, hps, h1]

def c10PseudoBad : PseudoEntity :=
  { kind := PseudoKind.map, upd := UpdResult.raise ExnClass.OtherError "perr" }

def c10aState : BState :=
  { actors := [(5, c3wGood)], pseudo_actors := [c10PseudoBad],
    timestamp_last_run := 0, update_lock := false, child_lock := false,
    shutdown := false, ego_roles := [] }

def c10Other : Entity :=
  { cls := ActorClass.Gnss, id := 6, parentId := none,
    upd := UpdResult.raise ExnClass.OtherError "aerr" }

def c10bState : BState :=
  { actors := [(5, c3wGood), (6, c10Other)],
    pseudo_actors := [{ kind := PseudoKind.map, upd := UpdResult.ok }],
    timestamp_last_run := 0, update_lock := false, child_lock := false,
    shutdown := false, ego_roles := [] }

def c10cState : BState :=
  { actors := [(5, c3wGood)],
    pseudo_actors := [{ kind := PseudoKind.map, upd := UpdResult.ok }],
    timestamp_last_run := 0, update_lock := false, child_lock := false,
    shutdown := false, ego_roles := [] }

/-- Witness for `c10_catch_narrowness` at concrete states: a pseudo entity
raising a non-`RuntimeError` propagates, a registry entity raising a
non-`RuntimeError` propagates, and a well-behaved pass raises nothing. -/
theorem c10_catch_narrowness_witness :
    (bridgeUpdate c10aState).2 =
      some { cls := ExnClass.OtherError, msg := "perr" } ∧
    (bridgeUpdate c10bState).2 =
      some { cls := ExnClass.OtherError, msg := "aerr" } ∧
    (bridgeUpdate c10cState).2 = none :=
  ⟨c10_catch_narrowness.1 c10aState [] c10PseudoBad [] ExnClass.OtherError
      "perr" rfl (by decide) rfl,
    c10_catch_narrowness.2.1 c10bState [(5, c3wGood)] 6 c10Other [] "aerr"
      (by decide) rfl (by decide) rfl,
    c10_catch_narrowness.2.2 c10cState (by decide) (by decide)⟩

/-! ### Frame lemmas: the factory and the loops touch only the registry and
the pseudo list -/

theorem mkStep_frame (s : BState) (aid : Nat) (tid : String)
    (role : Option String) (u : UpdResult) (pe : Option Entity)
    (evs1 : List Event) :
    (mkStep s aid tid role u pe evs1).1.update_lock = s.update_lock ∧
    (mkStep s aid tid role u pe evs1).1.child_lock = s.child_lock ∧
    (mkStep s aid tid role u pe evs1).1.ego_roles = s.ego_roles ∧
    (mkStep s aid tid role u pe evs1).1.shutdown = s.shutdown ∧
    (mkStep s aid tid role u pe evs1).1.timestamp_last_run =
      s.timestamp_last_run := by
  simp only [mkStep]
  split <;> simp

theorem create_actor_frame : ∀ (a : CarlaActor) (s : BState),
    (create_actor s a).1.update_lock = s.update_lock ∧
    (create_actor s a).1.child_lock = s.child_lock ∧
    (create_actor s a).1.ego_roles = s.ego_roles ∧
    (create_actor s a).1.shutdown = s.shutdown ∧
    (create_actor s a).1.timestamp_last_run = s.timestamp_last_run := by
  intro a
  induction a with
  | root aid tid role u =>
    intro s
    exact mkStep_frame s aid tid role u none []
  | child aid tid role u p ih =>
    intro s
    simp only [create_actor]
    cases hf : regFind s.actors p.id with
    | some pe => exact mkStep_frame s aid tid role u (some pe) []
    | none =>
      obtain ⟨h1, h2, h3, h4, h5⟩ := ih s
      obtain ⟨g1, g2, g3, g4, g5⟩ :=
        mkStep_frame (create_actor s p).1 aid tid role u
          (some (create_actor s p).2.1) (create_actor s p).2.2
      exact ⟨g1.trans h1, g2.trans h2, g3.trans h3, g4.trans h4, g5.trans h5⟩

theorem addLoop_frame : ∀ (E : List CarlaActor) (s : BState),
    (addLoop s E).1.update_lock = s.update_lock ∧
    (addLoop s E).1.child_lock = s.child_lock ∧
    (addLoop s E).1.ego_roles = s.ego_roles ∧
    (addLoop s E).1.shutdown = s.shutdown ∧
    (addLoop s E).1.timestamp_last_run = s.timestamp_last_run := by
  intro E
  induction E with
  | nil => intro s; exact ⟨rfl, rfl, rfl, rfl, rfl⟩
  | cons a rest ih =>
    intro s
    simp only [addLoop]
    split
    · exact ih s
    · obtain ⟨h1, h2, h3, h4, h5⟩ := create_actor_frame a s
      obtain ⟨g1, g2, g3, g4, g5⟩ := ih (create_actor s a).1
      exact ⟨g1.trans h1, g2.trans h2, g3.trans h3, g4.trans h4, g5.trans h5⟩

/-! ### Event-shape lemmas -/

theorem mkStep_evs (s : BState) (aid : Nat) (tid : String)
    (role : Option String) (u : UpdResult) (pe : Option Entity)
    (evs1 : List Event) :
    (mkStep s aid tid role u pe evs1).2.2 =
      evs1 ++ [Event.logCreated (classify s.ego_roles tid role) aid,
        Event.insertActor aid true s.child_lock] := by
  simp only [mkStep]
  split <;> simp

theorem create_evs_shape : ∀ (a : CarlaActor) (s : BState),
    ∀ ev ∈ (create_actor s a).2.2,
      (∃ c i, ev = Event.logCreated c i) ∨
      (∃ i ch, ev = Event.insertActor i true ch) := by
  intro a
  induction a with
  | root aid tid role u =>
    intro s ev hev
    rw [create_actor, mkStep_evs] at hev
    rcases List.mem_append.mp hev with h | h
    · cases h
    · rcases List.mem_cons.mp h with rfl | h
      · exact Or.inl ⟨_, _, rfl⟩
      · rcases List.mem_cons.mp h with rfl | h
        · exact Or.inr ⟨_, _, rfl⟩
        · cases h
  | child aid tid role u p ih =>
    intro s ev hev
    rw [create_actor] at hev
    cases hf : regFind s.actors p.id with
    | some pe =>
      rw [hf] at hev
      rw [mkStep_evs] at hev
      rcases List.mem_append.mp hev with h | h
      · cases h
      · rcases List.mem_cons.mp h with rfl | h
        · exact Or.inl ⟨_, _, rfl⟩
        · rcases List.mem_cons.mp h with rfl | h
          · exact Or.inr ⟨_, _, rfl⟩
          · cases h
    | none =>
      rw [hf] at hev
      rw [mkStep_evs] at hev
      rcases List.mem_append.mp hev with h | h
      · exact ih s ev h
      · rcases List.mem_cons.mp h with rfl | h
        · exact Or.inl ⟨_, _, rfl⟩
        · rcases List.mem_cons.mp h with rfl | h
          · exact Or.inr ⟨_, _, rfl⟩
          · cases h

theorem addLoop_evs_shape : ∀ (E : List CarlaActor) (s : BState),
    ∀ ev ∈ (addLoop s E).2,
      (∃ c i, ev = Event.logCreated c i) ∨
      (∃ i ch, ev = Event.insertActor i true ch) := by
  intro E
  induction E with
  | nil => intro s ev hev; cases hev
  | cons a rest ih =>
    intro s ev hev
    rw [addLoop] at hev
    by_cases hg : (regFind s.actors a.id).isSome = true
    · rw [if_pos hg] at hev
      exact ih s ev hev
    · rw [if_neg hg] at hev
      rcases List.mem_append.mp hev with h | h
      · exact create_evs_shape a s ev h
      · exact ih (create_actor s a).1 ev h

theorem removeLoop_evs_shape (ids : List Nat) (u c : Bool) :
    ∀ (ks : List Nat) (l : List (Nat × Entity)),
    ∀ ev ∈ (removeLoop ids u c ks l).2,
      (∃ msg, ev = Event.logwarn msg) ∨
      (∃ i, ev = Event.removeActor i u c) := by
  intro ks
  induction ks with
  | nil => intro l ev hev; cases hev
  | cons k ks ih =>
    intro l ev hev
    rw [removeLoop] at hev
    by_cases ht : pyTruthy (if ids.contains k then none else some k) = true
    · rw [if_pos ht] at hev
      rcases List.mem_cons.mp hev with rfl | hev
      · exact Or.inl ⟨_, rfl⟩
      · rcases List.mem_cons.mp hev with rfl | hev
        · exact Or.inr ⟨_, rfl⟩
        · exact ih (regErase l k) ev hev
    · rw [if_neg ht] at hev
      exact ih l ev hev

theorem removeLoop_pair (ids : List Nat) (u c : Bool) :
    ∀ (ks : List Nat) (l : List (Nat × Entity)) (i : Nat) (u' c' : Bool),
    Event.removeActor i u' c' ∈ (removeLoop ids u c ks l).2 →
    ∃ e1 e2, (removeLoop ids u c ks l).2 =
      e1 ++ Event.logwarn ("Remove Actor " ++ toString i) ::
        Event.removeActor i u' c' :: e2 := by
  intro ks
  induction ks with
  | nil => intro l i u' c' h; cases h
  | cons k ks ih =>
    intro l i u' c' h
    rw [removeLoop] at h ⊢
    by_cases ht : pyTruthy (if ids.contains k then none else some k) = true
    · rw [if_pos ht] at h ⊢
      dsimp only at h ⊢
      rcases List.mem_cons.mp h with heq | h2
      · cases heq
      · rcases List.mem_cons.mp h2 with heq | h3
        · obtain ⟨h1, h2', h3'⟩ : i = k ∧ u' = u ∧ c' = c := by
            injection heq with a b d
            exact ⟨a, b, d⟩
          refine ⟨[], (removeLoop ids u c ks (regErase l k)).2, ?_⟩
          rw [h1, h2', h3']
          rfl
        · obtain ⟨e1, e2, hsplit⟩ := ih (regErase l k) i u' c' h3
          refine ⟨Event.logwarn ("Remove Actor " ++ toString k) ::
            Event.removeActor k u c :: e1, e2, ?_⟩
          rw [hsplit]
          rfl
    · rw [if_neg ht] at h ⊢
      exact ih l i u' c' h

/-! ### Claim C9: removal logging -/

/-- Claim C9: every id removed from the registry by a reconciliation pass is
named in a `logwarn` emitted immediately before the removal: any removal
event in the `update_actors` trace is directly preceded by the warning
`Remove Actor <id>`. -/
theorem c9_removal_logging (E : List CarlaActor) (s : BState) (i : Nat)
    (u' c' : Bool)
    (h : Event.removeActor i u' c' ∈ (update_actors E s).2) :
    ∃ e1 e2, (update_actors E s).2 =
      e1 ++ Event.logwarn ("Remove Actor " ++ toString i) ::
        Event.removeActor i u' c' :: e2 := by
  simp only [update_actors] at h ⊢
  rcases List.mem_append.mp h with hL | hR
  · rcases addLoop_evs_shape E s _ hL with ⟨cc, ii, heq⟩ | ⟨ii, ch, heq⟩ <;>
      cases heq
  · obtain ⟨e1, e2, hsplit⟩ :=
      removeLoop_pair (E.map CarlaActor.id) (addLoop s E).1.update_lock
        (addLoop s E).1.child_lock ((addLoop s E).1.actors.map Prod.fst)
        (addLoop s E).1.actors i u' c' hR
    refine ⟨(addLoop s E).2 ++ e1, e2, ?_⟩
    rw [hsplit, List.append_assoc]

def c9Entity : Entity :=
  { cls := ActorClass.Actor, id := 2, parentId := none, upd := UpdResult.ok }

def c9State : BState :=
  { actors := [(2, c9Entity)], pseudo_actors := [], timestamp_last_run := 0,
    update_lock := false, child_lock := true, shutdown := false,
    ego_roles := [] }

/-- Witness for `c9_removal_logging`: reconciling registry `{2}` against an
empty enumeration removes id 2, and the trace carries the warning right
before the removal. -/
theorem c9_removal_logging_witness :
    ∃ e1 e2, (update_actors [] c9State).2 =
      e1 ++ Event.logwarn ("Remove Actor " ++ toString 2) ::
        Event.removeActor 2 false true :: e2 :=
  c9_removal_logging [] c9State 2 false true (by decide)

/-! ### Claim C7 (amended): insertions under the update lock, removals under
the reconciliation lock -/

/-- Claim C7 amended: during a reconciliation callback
(`_carla_update_child_actors` entered with both locks free and shutdown
clear), every Factory insertion into the registry happens while the update
lock is held (the `with self.update_lock` block), but every Reconciler
removal happens while only the child-actors (reconciliation) lock is held —
the update lock is NOT held at removal time. -/
theorem c7_amended (E : List CarlaActor) (s : BState)
    (hu : s.update_lock = false) (hc : s.child_lock = false)
    (hsd : s.shutdown = false) :
    ∀ ev ∈ (carla_update_child_actors E s).2,
      (∀ i u' c', ev = Event.insertActor i u' c' → u' = true) ∧
      (∀ i u' c', ev = Event.removeActor i u' c' →
        u' = false ∧ c' = true) := by
  intro ev hev
  rw [carla_update_child_actors, if_neg (by simp [hsd]), if_neg (by simp [hc])]
    at hev
  simp only [update_actors] at hev
  obtain ⟨hf1, hf2, -, -, -⟩ := addLoop_frame E { s with child_lock := true }
  rcases List.mem_append.mp hev with hL | hR
  · rcases addLoop_evs_shape E _ _ hL with ⟨cc, ii, heq⟩ | ⟨ii, ch, heq⟩
    · subst heq
      exact ⟨fun i u' c' h => (nomatch h), fun i u' c' h => (nomatch h)⟩
    · subst heq
      refine ⟨fun i u' c' h => ?_, fun i u' c' h => (nomatch h)⟩
      injection h with h1 h2 h3
      exact h2.symm
  · rcases removeLoop_evs_shape (E.map CarlaActor.id)
        (addLoop { s with child_lock := true } E).1.update_lock
        (addLoop { s with child_lock := true } E).1.child_lock _ _ ev hR with
      ⟨msg, heq⟩ | ⟨ii, heq⟩
    · subst heq
      exact ⟨fun i u' c' h => (nomatch h), fun i u' c' h => (nomatch h)⟩
    · subst heq
      refine ⟨fun i u' c' h => (nomatch h), fun i u' c' h => ?_⟩
      injection h with h1 h2 h3
      constructor
      · rw [← h2, hf1]
        simp [hu]
      · rw [← h3, hf2]

/-- Witness for `c7_amended` on a concrete reconciliation that both inserts
(id 1) and removes (id 2). -/
theorem c7_amended_witness :
    (∀ i u' c',
        Event.insertActor 1 true true = Event.insertActor i u' c' →
        u' = true) ∧
    (∀ i u' c',
        Event.insertActor 1 true true = Event.removeActor i u' c' →
        u' = false ∧ c' = true) :=
  c7_amended [CarlaActor.root 1 "vehicle.audi" none UpdResult.ok] c7State
    (by decide) (by decide) (by decide) (Event.insertActor 1 true true)
    (by decide)

/-! ### Claim C8: ego-vehicle side effect -/

theorem vehicle_not_traffic {t : String}
    (hv : pyStartsWith t "vehicle" = true) :
    pyStartsWith t "traffic" = false := by
  unfold pyStartsWith at hv ⊢
  have hveh : "vehicle".data = 'v' :: "ehicle".data := rfl
  have htra : "traffic".data = 't' :: "raffic".data := rfl
  rw [hveh] at hv
  rw [htra]
  cases hd : t.data with
  | nil =>
    rw [hd] at hv
    simp [List.isPrefixOf] at hv
  | cons c cs =>
    rw [hd] at hv
    simp only [List.isPrefixOf, Bool.and_eq_true, beq_iff_eq] at hv
    simp only [List.isPrefixOf]
    obtain ⟨h1, -⟩ := hv
    rw [← h1]
    have hne : (('t' : Char) == 'v') = false := by decide
    simp [hne]

theorem classify_vehicle {roles : List String} {tid : String}
    {role : Option String} (hv : pyStartsWith tid "vehicle" = true) :
    classify roles tid role =
      (if roleIsEgo roles role then ActorClass.EgoVehicle
       else ActorClass.Vehicle) := by
  unfold classify
  simp [vehicle_not_traffic hv, hv]

/-- Claim C8: for a handle whose type tag starts with `vehicle` (and whose
parent, if any, is already registered, so that the handle's own step is
isolated), `create_actor` with a role name in the configured ego set
returns an `EgoVehicle` entity and appends exactly one `ObjectSensor`
pseudo entity whose `filtered_id` is that vehicle's id; with a
non-matching (or missing) role name it returns a generic `Vehicle` and
leaves the pseudo-entity list unchanged. -/
theorem c8_ego_side_effect (s : BState) (a : CarlaActor)
    (hv : pyStartsWith a.type_id "vehicle" = true)
    (hp : (match a.parent with
           | none => true
           | some p => (regFind s.actors p.id).isSome) = true) :
    (roleIsEgo s.ego_roles a.role_name = true →
      (create_actor s a).2.1.cls = ActorClass.EgoVehicle ∧
      (create_actor s a).1.pseudo_actors = s.pseudo_actors ++
        [{ kind := PseudoKind.objectSensor (some a.id),
           upd := UpdResult.ok }]) ∧
    (roleIsEgo s.ego_roles a.role_name = false →
      (create_actor s a).2.1.cls = ActorClass.Vehicle ∧
      (create_actor s a).1.pseudo_actors = s.pseudo_actors) := by
  cases a with
  | root aid tid role u =>
    simp only [CarlaActor.type_id] at hv
    simp only [CarlaActor.role_name, CarlaActor.id]
    constructor
    · intro hrole
      simp [create_actor, mkStep, classify_vehicle hv, hrole]
    · intro hrole
      simp [create_actor, mkStep, classify_vehicle hv, hrole]
  | child aid tid role u p =>
    simp only [CarlaActor.type_id] at hv
    simp only [CarlaActor.parent] at hp
    obtain ⟨pe, hpe⟩ := Option.isSome_iff_exists.mp hp
    simp only [CarlaActor.role_name, CarlaActor.id]
    constructor
    · intro hrole
      simp [create_actor, hpe, mkStep, classify_vehicle hv, hrole]
    · intro hrole
      simp [create_actor, hpe, mkStep, classify_vehicle hv, hrole]

def c8State : BState :=
  { actors := [], pseudo_actors := [{ kind := PseudoKind.map, upd := UpdResult.ok }],
    timestamp_last_run := 0, update_lock := false, child_lock := false,
    shutdown := false, ego_roles := ["hero"] }

def c8Ego : CarlaActor :=
  CarlaActor.root 1 "vehicle.tesla.model3" (some "hero") UpdResult.ok

def c8Npc : CarlaActor :=
  CarlaActor.root 2 "vehicle.bmw.grandtourer" (some "npc") UpdResult.ok

/-- Witness for `c8_ego_side_effect`: the spec's own scenario — role name
`hero` configured as ego — plus a non-matching role name. -/
theorem c8_ego_side_effect_witness :
    ((create_actor c8State c8Ego).2.1.cls = ActorClass.EgoVehicle ∧
      (create_actor c8State c8Ego).1.pseudo_actors =
        c8State.pseudo_actors ++
          [{ kind := PseudoKind.objectSensor (some c8Ego.id),
             upd := UpdResult.ok }]) ∧
    ((create_actor c8State c8Npc).2.1.cls = ActorClass.Vehicle ∧
      (create_actor c8State c8Npc).1.pseudo_actors =
        c8State.pseudo_actors) :=
  ⟨(c8_ego_side_effect c8State c8Ego (by decide) (by decide)).1 (by decide),
   (c8_ego_side_effect c8State c8Npc (by decide) (by decide)).2 (by decide)⟩

/-! ### ParentBefore combinators -/

theorem parentBefore_nil (old : List (Nat × Entity)) : ParentBefore old [] := by
  intro n1 kv n2 h
  exact absurd h (by simp)

theorem parentBefore_single {old : List (Nat × Entity)} {kv : Nat × Entity}
    (h : ∀ pid, kv.2.parentId = some pid → pid ∈ old.map Prod.fst) :
    ParentBefore old [kv] := by
  intro n1 kv' n2 heq pid hpid
  cases n1 with
  | nil =>
    simp only [List.nil_append] at heq
    obtain ⟨h1, h2⟩ := List.cons.inj heq
    subst h1
    simpa using h pid hpid
  | cons x n1' =>
    simp only [List.cons_append] at heq
    obtain ⟨h1, h2⟩ := List.cons.inj heq
    exact absurd h2.symm (by simp)

theorem parentBefore_cons_iff (old : List (Nat × Entity))
    (kv0 : Nat × Entity) (rest : List (Nat × Entity)) :
    ParentBefore old (kv0 :: rest) ↔
      (∀ pid, kv0.2.parentId = some pid → pid ∈ old.map Prod.fst) ∧
      ParentBefore (old ++ [kv0]) rest := by
  constructor
  · intro h
    refine ⟨?_, ?_⟩
    · intro pid hpid
      simpa using h [] kv0 rest rfl pid hpid
    · intro n1 kv n2 heq pid hpid
      have := h (kv0 :: n1) kv n2 (by rw [heq]; rfl) pid hpid
      simpa [List.append_assoc] using this
  · rintro ⟨hh, ht⟩ n1 kv n2 heq pid hpid
    cases n1 with
    | nil =>
      simp only [List.nil_append] at heq
      obtain ⟨h1, h2⟩ := List.cons.inj heq
      subst h1
      simpa using hh pid hpid
    | cons x n1' =>
      simp only [List.cons_append] at heq
      obtain ⟨h1, h2⟩ := List.cons.inj heq
      subst h1
      have := ht n1' kv n2 h2 pid hpid
      simpa [List.append_assoc] using this

theorem parentBefore_append {old u v : List (Nat × Entity)}
    (hu : ParentBefore old u) (hv : ParentBefore (old ++ u) v) :
    ParentBefore old (u ++ v) := by
  induction u generalizing old with
  | nil => simpa using hv
  | cons kv0 u' ih =>
    rw [List.cons_append]
    rw [parentBefore_cons_iff] at hu ⊢
    refine ⟨hu.1, ?_⟩
    apply ih hu.2
    simpa [List.append_assoc] using hv

/-! ### Registry-growth helper lemmas -/

theorem entityOf_id (roles : List String) (x : CarlaActor) :
    (entityOf roles x).id = x.id := rfl

theorem keysNodup_snoc {l : List (Nat × Entity)} {k : Nat} {v : Entity}
    (h : KeysNodup l) (hk : k ∉ l.map Prod.fst) :
    KeysNodup (l ++ [(k, v)]) := by
  rw [KeysNodup, List.map_append, List.nodup_append]
  refine ⟨h, List.nodup_singleton _, ?_⟩
  intro x hx hmem
  simp at hmem
  subst hmem
  exact hk hx

theorem idMatch_snoc {l : List (Nat × Entity)} {k : Nat} {v : Entity}
    (h : IdMatch l) (hv : v.id = k) : IdMatch (l ++ [(k, v)]) := by
  intro kv hkv
  rcases List.mem_append.mp hkv with h1 | h1
  · exact h kv h1
  · simp at h1
    subst h1
    exact hv

theorem mkStep_actors (s : BState) (aid : Nat) (tid : String)
    (role : Option String) (u : UpdResult) (pe : Option Entity)
    (evs1 : List Event) :
    (mkStep s aid tid role u pe evs1).1.actors =
      regInsert s.actors aid
        { cls := classify s.ego_roles tid role, id := aid,
          parentId := pe.map Entity.id, upd := u } := by
  simp only [mkStep]
  split <;> simp

theorem mkStep_ent (s : BState) (aid : Nat) (tid : String)
    (role : Option String) (u : UpdResult) (pe : Option Entity)
    (evs1 : List Event) :
    (mkStep s aid tid role u pe evs1).2.1 =
      { cls := classify s.ego_roles tid role, id := aid,
        parentId := pe.map Entity.id, upd := u } := rfl

/-! ### The factory specification -/

/-- `create_actor` on a fresh handle (under the registry invariants) appends
a block `new` of entries to the registry: each entry realises `entityOf`
for a member of the handle's ancestor chain, the handle's own id is among
them, the invariants are preserved, each inserted entity's parent id is a
key inserted strictly before it, and the returned entity is `entityOf` of
the handle. -/
theorem create_actor_spec : ∀ (a : CarlaActor) (s : BState),
    IdMatch s.actors → KeysNodup s.actors →
    (a.chain.map CarlaActor.id).Nodup →
    a.id ∉ s.actors.map Prod.fst →
    ∃ new : List (Nat × Entity),
      (create_actor s a).1.actors = s.actors ++ new ∧
      (∀ kv ∈ new, ∃ x, x ∈ a.chain ∧ x.id = kv.1 ∧
        kv.2 = entityOf s.ego_roles x) ∧
      a.id ∈ new.map Prod.fst ∧
      IdMatch (s.actors ++ new) ∧
      KeysNodup (s.actors ++ new) ∧
      ParentBefore s.actors new ∧
      (create_actor s a).2.1 = entityOf s.ego_roles a := by
  intro a
  induction a with
  | root aid tid role u =>
    intro s hIM hND hCN hfresh
    simp only [CarlaActor.id] at hfresh
    have hact : (create_actor s (CarlaActor.root aid tid role u)).1.actors =
        s.actors ++ [(aid, entityOf s.ego_roles (CarlaActor.root aid tid role u))] := by
      rw [create_actor, mkStep_actors]
      exact regInsert_append _ hfresh
    have hent : (create_actor s (CarlaActor.root aid tid role u)).2.1 =
        entityOf s.ego_roles (CarlaActor.root aid tid role u) := by
      rw [create_actor, mkStep_ent]
      rfl
    refine ⟨[(aid, entityOf s.ego_roles (CarlaActor.root aid tid role u))],
      hact, ?_, by simp [CarlaActor.id], ?_, keysNodup_snoc hND hfresh, ?_, hent⟩
    · intro kv hkv
      simp at hkv
      subst hkv
      exact ⟨CarlaActor.root aid tid role u, by simp [CarlaActor.chain], rfl, rfl⟩
    · exact idMatch_snoc hIM rfl
    · refine parentBefore_single ?_
      intro pid hpid
      exact absurd hpid (by simp [entityOf, CarlaActor.parent])
  | child aid tid role u p ih =>
    intro s hIM hND hCN hfresh
    simp only [CarlaActor.id] at hfresh
    have hCN' : aid ∉ p.chain.map CarlaActor.id ∧
        (p.chain.map CarlaActor.id).Nodup := by
      have : (CarlaActor.child aid tid role u p).chain =
          CarlaActor.child aid tid role u p :: p.chain := rfl
      rw [this] at hCN
      simpa [CarlaActor.id] using hCN
    cases hf : regFind s.actors p.id with
    | some pe =>
      have hpe_id : pe.id = p.id := hIM (p.id, pe) (regFind_some_mem hf)
      have hkey : p.id ∈ s.actors.map Prod.fst := regFind_some_key hf
      have hact : (create_actor s (CarlaActor.child aid tid role u p)).1.actors =
          s.actors ++
            [(aid, entityOf s.ego_roles (CarlaActor.child aid tid role u p))] := by
        rw [create_actor, hf, mkStep_actors, regInsert_append _ hfresh]
        simp [entityOf, CarlaActor.type_id, CarlaActor.role_name,
          CarlaActor.updOf, CarlaActor.parent, CarlaActor.id, hpe_id]
      have hent : (create_actor s (CarlaActor.child aid tid role u p)).2.1 =
          entityOf s.ego_roles (CarlaActor.child aid tid role u p) := by
        rw [create_actor, hf, mkStep_ent]
        simp [entityOf, CarlaActor.type_id, CarlaActor.role_name,
          CarlaActor.updOf, CarlaActor.parent, CarlaActor.id, hpe_id]
      refine ⟨[(aid, entityOf s.ego_roles (CarlaActor.child aid tid role u p))],
        hact, ?_, by simp [CarlaActor.id], ?_, keysNodup_snoc hND hfresh, ?_, hent⟩
      · intro kv hkv
        simp at hkv
        subst hkv
        exact ⟨CarlaActor.child aid tid role u p,
          by simp [CarlaActor.chain], rfl, rfl⟩
      · exact idMatch_snoc hIM rfl
      · refine parentBefore_single ?_
        intro pid hpid
        have : pid = p.id := by
          simpa [entityOf, CarlaActor.parent] using hpid.symm
        rw [this]
        exact hkey
    | none =>
      have hpfresh : p.id ∉ s.actors.map Prod.fst := regFind_none_key hf
      obtain ⟨newp, hact1, hent1, hpidmem, hIM1, hND1, hPB1, hret1⟩ :=
        ih s hIM hND hCN'.2 hpfresh
      obtain ⟨hfr1, hfr2, hfr3, hfr4, hfr5⟩ := create_actor_frame p s
      have haidfresh : aid ∉ (s.actors ++ newp).map Prod.fst := by
        rw [List.map_append]
        intro hmem
        rcases List.mem_append.mp hmem with h1 | h1
        · exact hfresh h1
        · obtain ⟨kv, hkv, hfst⟩ := List.mem_map.mp h1
          obtain ⟨x, hx, hxid, -⟩ := hent1 kv hkv
          exact hCN'.1 (List.mem_map.mpr ⟨x, hx, by rw [hxid, hfst]⟩)
      have hact : (create_actor s (CarlaActor.child aid tid role u p)).1.actors =
          s.actors ++ (newp ++
            [(aid, entityOf s.ego_roles (CarlaActor.child aid tid role u p))]) := by
        rw [create_actor, hf, mkStep_actors, hact1,
          regInsert_append _ haidfresh, List.append_assoc]
        simp [entityOf, CarlaActor.type_id, CarlaActor.role_name,
          CarlaActor.updOf, CarlaActor.parent, CarlaActor.id, hfr3, hret1,
          entityOf_id]
      have hent : (create_actor s (CarlaActor.child aid tid role u p)).2.1 =
          entityOf s.ego_roles (CarlaActor.child aid tid role u p) := by
        rw [create_actor, hf, mkStep_ent]
        simp [entityOf, CarlaActor.type_id, CarlaActor.role_name,
          CarlaActor.updOf, CarlaActor.parent, CarlaActor.id, hfr3, hret1,
          entityOf_id]
      refine ⟨newp ++
        [(aid, entityOf s.ego_roles (CarlaActor.child aid tid role u p))],
        hact, ?_, ?_, ?_, ?_, ?_, hent⟩
      · intro kv hkv
        rcases List.mem_append.mp hkv with h1 | h1
        · obtain ⟨x, hx, hxid, hxe⟩ := hent1 kv h1
          exact ⟨x, by
            rw [show (CarlaActor.child aid tid role u p).chain =
              CarlaActor.child aid tid role u p :: p.chain from rfl]
            exact List.mem_cons_of_mem _ hx, hxid, hxe⟩
        · simp at h1
          subst h1
          exact ⟨CarlaActor.child aid tid role u p,
            by simp [CarlaActor.chain], rfl, rfl⟩
      · simp [CarlaActor.id]
      · rw [← List.append_assoc]
        exact idMatch_snoc hIM1 rfl
      · rw [← List.append_assoc]
        exact keysNodup_snoc hND1 haidfresh
      · refine parentBefore_append hPB1 (parentBefore_single ?_)
        intro pid hpid
        have : pid = p.id := by
          simpa [entityOf, CarlaActor.parent] using hpid.symm
        rw [this, List.map_append]
        exact List.mem_append_right _ hpidmem

/-! ### Closure lemmas and the creation-loop specification -/

theorem self_mem_chain (a : CarlaActor) : a ∈ a.chain := by
  cases a <;> simp [CarlaActor.chain]

theorem chain_subset_closureOf {E : List CarlaActor} {a x : CarlaActor}
    (ha : a ∈ E) (hx : x ∈ a.chain) : x ∈ closureOf E := by
  induction E with
  | nil => cases ha
  | cons b rest ih =>
    simp only [closureOf]
    rcases List.mem_cons.mp ha with rfl | ha'
    · exact List.mem_append_left _ hx
    · exact List.mem_append_right _ (ih ha')

theorem mem_closureOf_self {E : List CarlaActor} {a : CarlaActor}
    (ha : a ∈ E) : a ∈ closureOf E :=
  chain_subset_closureOf ha (self_mem_chain a)

/-- The creation loop of `update_actors` appends a block `new`: every new
entry realises `entityOf` for some member of the enumeration's ancestor
closure, every enumerated id ends up among the keys, the registry
invariants are preserved, and each new entry's parent id is a key inserted
strictly before it. -/
theorem addLoop_spec : ∀ (E : List CarlaActor) (s : BState),
    (∀ a ∈ E, (a.chain.map CarlaActor.id).Nodup) →
    IdMatch s.actors → KeysNodup s.actors →
    ∃ new : List (Nat × Entity),
      (addLoop s E).1.actors = s.actors ++ new ∧
      (∀ kv ∈ new, ∃ x, x ∈ closureOf E ∧ x.id = kv.1 ∧
        kv.2 = entityOf s.ego_roles x) ∧
      (∀ a ∈ E, a.id ∈ (s.actors ++ new).map Prod.fst) ∧
      IdMatch (s.actors ++ new) ∧
      KeysNodup (s.actors ++ new) ∧
      ParentBefore s.actors new := by
  intro E
  induction E with
  | nil =>
    intro s hwf hIM hND
    exact ⟨[], by simp [addLoop], by simp, by simp, by simpa using hIM,
      by simpa using hND, parentBefore_nil _⟩
  | cons a rest ih =>
    intro s hwf hIM hND
    by_cases hg : (regFind s.actors a.id).isSome = true
    · have hmem : a.id ∈ s.actors.map Prod.fst := (regFind_isSome_iff _ _).mp hg
      obtain ⟨new, h1, h2, h3, h4, h5, h6⟩ :=
        ih s (fun x hx => hwf x (List.mem_cons_of_mem _ hx)) hIM hND
      refine ⟨new, ?_, ?_, ?_, h4, h5, h6⟩
      · rw [addLoop, if_pos hg]
        exact h1
      · intro kv hkv
        obtain ⟨x, hx, hxi, hxe⟩ := h2 kv hkv
        refine ⟨x, ?_, hxi, hxe⟩
        simp only [closureOf]
        exact List.mem_append_right _ hx
      · intro b hb
        rcases List.mem_cons.mp hb with rfl | hb'
        · rw [List.map_append]
          exact List.mem_append_left _ hmem
        · exact h3 b hb'
    · have hg' : regFind s.actors a.id = none := by
        cases hx : regFind s.actors a.id with
        | none => rfl
        | some e => rw [hx] at hg; simp at hg
      have hfresh : a.id ∉ s.actors.map Prod.fst := regFind_none_key hg'
      obtain ⟨newa, ha1, ha2, ha3, ha4, ha5, ha6, ha7⟩ :=
        create_actor_spec a s hIM hND (hwf a (List.mem_cons_self _ _)) hfresh
      obtain ⟨hfr1, hfr2, hfr3, hfr4, hfr5⟩ := create_actor_frame a s
      obtain ⟨newr, hr1, hr2, hr3, hr4, hr5, hr6⟩ :=
        ih (create_actor s a).1
          (fun x hx => hwf x (List.mem_cons_of_mem _ hx))
          (by rw [ha1]; exact ha4) (by rw [ha1]; exact ha5)
      refine ⟨newa ++ newr, ?_, ?_, ?_, ?_, ?_, ?_⟩
      · rw [addLoop, if_neg hg]
        dsimp only
        rw [hr1, ha1, List.append_assoc]
      · intro kv hkv
        rcases List.mem_append.mp hkv with h | h
        · obtain ⟨x, hx, hxi, hxe⟩ := ha2 kv h
          refine ⟨x, ?_, hxi, hxe⟩
          simp only [closureOf]
          exact List.mem_append_left _ hx
        · obtain ⟨x, hx, hxi, hxe⟩ := hr2 kv h
          refine ⟨x, ?_, hxi, ?_⟩
          · simp only [closureOf]
            exact List.mem_append_right _ hx
          · rw [hxe, hfr3]
      · intro b hb
        rcases List.mem_cons.mp hb with rfl | hb'
        · rw [← List.append_assoc, List.map_append]
          refine List.mem_append_left _ ?_
          rw [List.map_append]
          exact List.mem_append_right _ ha3
        · have hmem := hr3 b hb'
          rw [ha1] at hmem
          rw [← List.append_assoc]
          exact hmem
      · rw [← List.append_assoc]
        rw [ha1] at hr4
        exact hr4
      · rw [← List.append_assoc]
        rw [ha1] at hr5
        exact hr5
      · refine parentBefore_append ha6 ?_
        rw [← ha1]
        exact hr6

/-- A registry key that occurs among the enumerated ids survives the
removal loop. -/
theorem removeLoop_keeps (ids : List Nat) (u c : Bool) :
    ∀ (ks : List Nat) (l : List (Nat × Entity)) (k0 : Nat),
    k0 ∈ l.map Prod.fst → ids.contains k0 = true →
    k0 ∈ (removeLoop ids u c ks l).1.map Prod.fst := by
  intro ks
  induction ks with
  | nil => intro l k0 h hc; exact h
  | cons k ks ih =>
    intro l k0 h hc
    rw [removeLoop]
    by_cases ht : pyTruthy (if ids.contains k then none else some k) = true
    · rw [if_pos ht]
      dsimp only
      apply ih
      · have hknotin : ids.contains k = false := by
          by_cases hik : ids.contains k = true
          · rw [if_pos hik] at ht
            simp [pyTruthy] at ht
          · simpa using hik
        have hne : k0 ≠ k := by
          intro heq
          rw [heq, hknotin] at hc
          cases hc
        exact regErase_keeps hne h
      · exact hc
    · rw [if_neg ht]
      exact ih l k0 h hc

/-! ### Claim C6 (amended): parent-before-child within the creation phase -/

/-- Claim C6 amended: over a well-formed enumeration (ids determine handles
across the ancestor closure, ancestor chains have distinct ids) and a
well-formed prior registry, for an enumerated entity whose parent handle is
not yet registered (the entity itself being new as well): after the
creation loop the child's entry sits at a position strictly after a key
equal to the parent's id (the association list is in insertion order, so
the parent was inserted no later than the child); and the parent's entry
still exists after the full reconciliation PROVIDED the parent's id occurs
in the enumeration — otherwise the removal phase deletes it (see the
counterexample). -/
theorem c6_amended (E : List CarlaActor) (s : BState) (c p : CarlaActor)
    (hcons : idsConsistentB (closureOf E) = true)
    (hwf : E.all chainNodupB = true)
    (him : idMatchB s.actors = true)
    (hnd : keysNodupB s.actors = true)
    (hc : c ∈ E) (hcp : c.parent = some p)
    (hpn : p.id ∉ s.actors.map Prod.fst)
    (hcn : c.id ∉ s.actors.map Prod.fst) :
    (∃ l1 e l2, (addLoop s E).1.actors = l1 ++ (c.id, e) :: l2 ∧
      p.id ∈ l1.map Prod.fst) ∧
    (p.id ∈ E.map CarlaActor.id →
      p.id ∈ (update_actors E s).1.actors.map Prod.fst) := by
  have hwf' : ∀ a ∈ E, (a.chain.map CarlaActor.id).Nodup := by
    intro a ha
    simpa [chainNodupB] using List.all_eq_true.mp hwf a ha
  have him' := (idMatchB_iff _).mp him
  have hnd' := (keysNodupB_iff _).mp hnd
  obtain ⟨new, h1, h2, h3, h4, h5, h6⟩ := addLoop_spec E s hwf' him' hnd'
  have hcidnew : c.id ∈ new.map Prod.fst := by
    have hmem := h3 c hc
    rw [List.map_append] at hmem
    rcases List.mem_append.mp hmem with h | h
    · exact absurd h hcn
    · exact h
  obtain ⟨kv, hkvmem, hkvfst⟩ := List.mem_map.mp hcidnew
  obtain ⟨n1, n2, hsplit⟩ := List.append_of_mem hkvmem
  obtain ⟨x, hxc, hxid, hxe⟩ := h2 kv hkvmem
  have hxc2 : x = c := by
    have hcc := mem_closureOf_self hc
    have hin := List.all_eq_true.mp (List.all_eq_true.mp hcons x hxc) c hcc
    have hxidc : x.id = c.id := by rw [hxid, hkvfst]
    simp only [hxidc, beq_self_eq_true, Bool.not_true, Bool.false_or] at hin
    exact eq_of_beq hin
  subst hxc2
  have hpid : kv.2.parentId = some p.id := by
    rw [hxe]
    simp [entityOf, hcp]
  have hbefore := h6 n1 kv n2 hsplit p.id hpid
  constructor
  · refine ⟨s.actors ++ n1, kv.2, n2, ?_, hbefore⟩
    rw [h1, hsplit, ← hkvfst]
    simp [List.append_assoc]
  · intro hps
    simp only [update_actors]
    apply removeLoop_keeps
    · rw [h1, hsplit]
      rw [List.map_append, List.map_append]
      refine List.mem_append_right _ ?_
      rw [List.map_append] at hbefore
      rcases List.mem_append.mp hbefore with h | h
      · exact absurd h hpn
      · exact List.mem_append_left _ h
    · simpa using hps

def c6wParent : CarlaActor := CarlaActor.root 1 "spectator" none UpdResult.ok

def c6wChild : CarlaActor :=
  CarlaActor.child 2 "vehicle.tesla" none UpdResult.ok c6wParent

def c6wState : BState :=
  { actors := [], pseudo_actors := [], timestamp_last_run := 0,
    update_lock := false, child_lock := false, shutdown := false,
    ego_roles := [] }

/-- Witness for `c6_amended`: enumeration `[parent id 1, child id 2]` over
an empty registry. -/
theorem c6_amended_witness :
    (∃ l1 e l2, (addLoop c6wState [c6wParent, c6wChild]).1.actors =
        l1 ++ (c6wChild.id, e) :: l2 ∧ c6wParent.id ∈ l1.map Prod.fst) ∧
    (c6wParent.id ∈ [c6wParent, c6wChild].map CarlaActor.id →
      c6wParent.id ∈
        (update_actors [c6wParent, c6wChild] c6wState).1.actors.map
          Prod.fst) :=
  c6_amended [c6wParent, c6wChild] c6wState c6wChild c6wParent (by decide)
    (by decide) (by decide) (by decide) (by decide) rfl (by decide)
    (by decide)
